import Mathlib

/-!
Verification of the talyon job-pipeline repository.

This file gives a shallow embedding, in Lean 4, of the pure computational
core of the Python sources under scrutiny:

* src/data_refiner.py    : fix_post_date, extract_salary_range_from_text,
                           generate_job_hash, remove_duplicates_and_fix_dates
* src/llm_parser.py      : create_batches, the response post-processing of
                           parse_batch
* src/final_scraper.py   : is_valid_job
* src/unified_job_pipeline.py and src/improved_job_pipeline.py :
                           step2_data_refinement, refine_single_job,
                           infer_industry, infer_experience_level,
                           process_batch_with_llm, generate_enhanced_job_hash

Python dictionaries are modelled as Lean structures whose fields default to
the empty string when the Python code reads them with dict.get and a falsy
default; machine-level details that the claims do not touch (exact Unicode
case folding, the full generality of datetime.fromisoformat) are modelled on
the ASCII fragment the code actually processes, and each such spot carries a
comment saying so.
-/

namespace Talyon

/-! ### Python string primitives (ASCII fragment) -/

/-- Whitespace characters recognised by Python str.strip and the regex
class backslash-s (space, tab, newline, carriage return, vertical tab,
form feed). -/
def isPyWs (c : Char) : Bool :=
  c = ' ' || c = '\t' || c = '\n' || c = '\r' || c = '\x0b' || c = '\x0c'

/-- Python str.strip on a character list: drop whitespace from both ends. -/
def pyStripList (cs : List Char) : List Char :=
  ((cs.dropWhile isPyWs).reverse.dropWhile isPyWs).reverse

/-- Python str.strip. -/
def pyStrip (s : String) : String :=
  ⟨pyStripList s.data⟩

/-- Python str.lower, restricted to ASCII: the job texts handled by the
pipeline are ASCII, where Char.toLower agrees with Python. -/
def pyLower (s : String) : String :=
  ⟨s.data.map Char.toLower⟩

/-- Decide whether the second list starts with the first one. -/
def listStarts : List Char → List Char → Bool
  | [], _ => true
  | _ :: _, [] => false
  | a :: as, b :: bs => a = b && listStarts as bs

/-- Substring containment on character lists, the Python operator in. -/
def listHas (needle : List Char) : List Char → Bool
  | [] => listStarts needle []
  | c :: rest => listStarts needle (c :: rest) || listHas needle rest

/-- Substring containment on strings. -/
def strHas (hay needle : String) : Bool :=
  listHas needle.data hay.data

/-- Python str.startswith. -/
def pyStartsWith (s pre : String) : Bool :=
  listStarts pre.data s.data

/-- Python str.endswith. -/
def pyEndsWith (s suf : String) : Bool :=
  listStarts suf.data.reverse s.data.reverse

/-- Numeric value of a decimal digit character. -/
def digitVal (c : Char) : Nat := c.toNat - 48

/-- Python int applied to a nonempty string of decimal digits. -/
def natOfDigits (cs : List Char) : Nat :=
  cs.foldl (fun a c => 10 * a + digitVal c) 0

/-- Python character comparison, by Unicode code point. -/
def charLt (a b : Char) : Bool := a.toNat < b.toNat

/-- Python string comparison, lexicographic by code point, on character
lists. -/
def listLe : List Char → List Char → Bool
  | [], _ => true
  | _ :: _, [] => false
  | a :: as, b :: bs =>
    if charLt a b then true
    else if charLt b a then false
    else listLe as bs

/-- The Python comparison s1 less-or-equal s2 used as the sort key
comparison on scraped_at timestamps. -/
def scrapedLe (a b : String) : Bool := listLe a.data b.data

/-! ### Calendar arithmetic

Python datetime.date is a proleptic Gregorian date restricted to the years
1 through 9999.  We represent a date by its day number in the civil
calendar with epoch 0000-03-01, using the standard era/year-of-era
conversion; subtracting a timedelta of n days is ordinal subtraction,
raising OverflowError when the result leaves the supported range. -/

def isLeap (y : Nat) : Bool :=
  y % 4 = 0 && (y % 100 ≠ 0 || y % 400 = 0)

def daysInMonth (y m : Nat) : Nat :=
  if m = 2 then (if isLeap y then 29 else 28)
  else if m = 4 || m = 6 || m = 9 || m = 11 then 30
  else 31

/-- Day number of a civil date (epoch 0000-03-01). -/
def daysFromCivil (y m d : Nat) : Nat :=
  let yy := if m ≤ 2 then y - 1 else y
  let era := yy / 400
  let yoe := yy % 400
  let mp := (m + 9) % 12
  let doy := (153 * mp + 2) / 5 + d - 1
  let doe := yoe * 365 + yoe / 4 - yoe / 100 + doy
  era * 146097 + doe

/-- Civil date of a day number (epoch 0000-03-01). -/
def civilFromDays (z : Nat) : Nat × Nat × Nat :=
  let era := z / 146097
  let doe := z % 146097
  let yoe := (doe - doe / 1460 + doe / 36524 - doe / 146096) / 365
  let yy := yoe + era * 400
  let doy := doe - (365 * yoe + yoe / 4 - yoe / 100)
  let mp := (5 * doy + 2) / 153
  let d := doy - (153 * mp + 2) / 5 + 1
  let m := if mp < 10 then mp + 3 else mp - 9
  (if m ≤ 2 then yy + 1 else yy, m, d)

/-- Day number of date.min, the date 0001-01-01. -/
def minOrd : Nat := daysFromCivil 1 1 1

/-- Day number of date.max, the date 9999-12-31. -/
def maxOrd : Nat := daysFromCivil 9999 12 31

/-- Zero padding to two digits, as in strftime with percent-m. -/
def pad2 (n : Nat) : String :=
  if n < 10 then "0" ++ toString n else toString n

/-- Zero padding to four digits.  All years handled by the pipeline have
four digits, where every strftime implementation prints them plainly. -/
def pad4 (n : Nat) : String :=
  if n < 10 then "000" ++ toString n
  else if n < 100 then "00" ++ toString n
  else if n < 1000 then "0" ++ toString n
  else toString n

/-- The strftime format string percent-Y dash percent-m dash percent-d. -/
def fmtYMD (y m d : Nat) : String :=
  pad4 y ++ "-" ++ pad2 m ++ "-" ++ pad2 d

/-- Format a day number as YYYY-MM-DD. -/
def fmtOrd (z : Nat) : String :=
  match civilFromDays z with
  | (y, m, d) => fmtYMD y m d

/-- Parse exactly ten characters of the shape YYYY-MM-DD into raw numbers. -/
def parseYMD10 : List Char → Option (Nat × Nat × Nat)
  | [a, b, c, d, s1, e, f, s2, g, h] =>
    if a.isDigit && b.isDigit && c.isDigit && d.isDigit && s1 = '-' &&
       e.isDigit && f.isDigit && s2 = '-' && g.isDigit && h.isDigit then
      some (natOfDigits [a, b, c, d], natOfDigits [e, f], natOfDigits [g, h])
    else none
  | _ => none

/-- Calendar validity in the Python datetime range. -/
def validYMD (y m d : Nat) : Bool :=
  1 ≤ y && y ≤ 9999 && 1 ≤ m && m ≤ 12 && 1 ≤ d && d ≤ daysInMonth y m

/-- Validity of a trailing HH:MM:SS time-of-day component. -/
def validTimeTail : List Char → Bool
  | [h1, h2, c1, m1, m2, c2, s1, s2] =>
    h1.isDigit && h2.isDigit && c1 = ':' && m1.isDigit && m2.isDigit &&
    c2 = ':' && s1.isDigit && s2.isDigit &&
    natOfDigits [h1, h2] < 24 && natOfDigits [m1, m2] < 60 &&
    natOfDigits [s1, s2] < 60
  | _ => false

/-- Reference-date extraction of fix_post_date: the Python code runs
datetime.fromisoformat on scraped_at and keeps the calendar date.  This
models the ISO forms the pipeline produces, YYYY-MM-DD optionally followed
by a T or space separator and HH:MM:SS; fromisoformat accepts further
variants (fractional seconds, offsets) that never occur in this codebase,
and any unparsable value makes the code fall back to the current date. -/
def parseScrapedRef (s : String) : Option Nat :=
  let cs := s.data
  match parseYMD10 (cs.take 10) with
  | none => none
  | some (y, m, d) =>
    if validYMD y m d then
      match cs.drop 10 with
      | [] => some (daysFromCivil y m d)
      | sep :: rest =>
        if (sep = 'T' || sep = ' ') && validTimeTail rest then
          some (daysFromCivil y m d)
        else none
    else none

/-! ### The relative-date regex of fix_post_date

The code runs re.search with the pattern (backslash-d+) ws-star UNIT s?
ws-star ago on the lowered text, where UNIT is day, week or month.  The
matcher below is the specialisation of leftmost greedy matching to this
pattern: since no digit is whitespace or starts a unit word, the greedy
choices of the digit run, of the optional s and of the whitespace stars
never need backtracking, so a direct scan is equivalent. -/

/-- Strip a literal off a character list. -/
def stripLit : List Char → List Char → Option (List Char)
  | [], cs => some cs
  | _ :: _, [] => none
  | a :: as, b :: bs => if a = b then stripLit as bs else none

/-- Drop regex-class whitespace. -/
def dropPyWs (cs : List Char) : List Char := cs.dropWhile isPyWs

/-- Match ws-star UNIT s? ws-star ago against the characters following a
digit run. -/
def relTail (unit : List Char) (cs : List Char) : Bool :=
  match stripLit unit (dropPyWs cs) with
  | none => false
  | some cs2 =>
    let cs3 := match cs2 with
      | 's' :: r => r
      | _ => cs2
    listStarts ['a', 'g', 'o'] (dropPyWs cs3)

/-- Leftmost search for (backslash-d+) ws-star UNIT s? ws-star ago,
returning the integer value of the captured digit group. -/
def searchNumUnit (unit : List Char) : List Char → Option Nat
  | [] => none
  | c :: rest =>
    if c.isDigit then
      let run := c :: rest.takeWhile Char.isDigit
      let tl := rest.dropWhile Char.isDigit
      if relTail unit tl then some (natOfDigits run) else searchNumUnit unit rest
    else searchNumUnit unit rest

/-- Subtraction of a timedelta of n days from a reference day number,
formatted by strftime; Python raises OverflowError when the target leaves
the range of datetime.date, which the embedding reports as Except.error. -/
def subDaysFmt (refOrd : Nat) (n : Nat) : Except String String :=
  let t : Int := (refOrd : Int) - (n : Int)
  if t < (minOrd : Int) || (maxOrd : Int) < t then
    Except.error "OverflowError: date value out of range"
  else
    Except.ok (fmtOrd t.toNat)

/-- The anchored prefix test re.match on the pattern of four digits, dash,
two digits, dash, two digits; no calendar validation is performed. -/
def startsYMD (s : String) : Bool :=
  match s.data with
  | a :: b :: c :: d :: s1 :: e :: f :: s2 :: g :: h :: _ =>
    a.isDigit && b.isDigit && c.isDigit && d.isDigit && s1 = '-' &&
    e.isDigit && f.isDigit && s2 = '-' && g.isDigit && h.isDigit
  | _ => false

/-- Shared splitter for the MM/DD/YYYY shape: both the anchored regex
d-1-2 slash d-1-2 slash d-4 and strptime read a run of one or two digits,
a slash, another such run, a slash; greedy matching of each run is exact
because a digit can never match the following slash.  Returns the month
digits, the day digits and the characters after the second slash. -/
def mdySplit (cs : List Char) : Option (List Char × List Char × List Char) :=
  let r1 := cs.takeWhile Char.isDigit
  match cs.dropWhile Char.isDigit with
  | '/' :: cs2 =>
    if r1.length = 1 || r1.length = 2 then
      let r2 := cs2.takeWhile Char.isDigit
      match cs2.dropWhile Char.isDigit with
      | '/' :: cs3 =>
        if r2.length = 1 || r2.length = 2 then some (r1, r2, cs3) else none
      | _ => none
    else none
  | _ => none

/-- The anchored prefix test re.match on d-1-2 slash d-1-2 slash d-4. -/
def startsMDY (s : String) : Bool :=
  match mdySplit s.data with
  | some (_, _, cs3) => 4 ≤ (cs3.takeWhile Char.isDigit).length
  | none => false

/-- Python datetime.strptime with format percent-m slash percent-d slash
percent-Y: the whole string must be consumed, the year takes exactly four
digits, and the resulting date must be calendar-valid. -/
def strptimeMDY (s : String) : Option (Nat × Nat × Nat) :=
  match mdySplit s.data with
  | some (r1, r2, cs3) =>
    if cs3.length = 4 && cs3.all Char.isDigit then
      let m := natOfDigits r1
      let d := natOfDigits r2
      let y := natOfDigits cs3
      if validYMD y m d then some (y, m, d) else none
    else none
  | none => none

/-! ### DataRefiner job records and fix_post_date -/

/-- The fields of a job record read by DataRefiner.remove_duplicates_and_
fix_dates and DataRefiner.fix_post_date.  A key that is missing, None or
empty is modelled as the empty string, matching the falsy checks and the
empty-string dict.get defaults of the Python code. -/
structure RJob where
  job_hash : String
  scraped_at : String
  post_date : String
deriving DecidableEq, Repr

instance : Inhabited RJob := ⟨⟨"", "", ""⟩⟩

/-- The reference date of fix_post_date: the calendar date of scraped_at,
falling back to the current date todayOrd when parsing fails. -/
def refOf (todayOrd : Nat) (job : RJob) : Nat :=
  match parseScrapedRef job.scraped_at with
  | some o => o
  | none => todayOrd

/-- The action the elif chain of fix_post_date selects: return a fixed
string, format the reference date, or subtract an offset of days from the
reference date. -/
inductive DateRule : Type
  | ret (s : String) : DateRule
  | fmtRef : DateRule
  | sub (n : Nat) : DateRule
deriving DecidableEq, Repr

/-- The elif chain of DataRefiner.fix_post_date (src/data_refiner.py
lines 370 to 411), which inspects only the post_date string: the lowered
stripped text equal to today or yesterday, the three relative-date
substring guards with their number searches, the anchored absolute-date
and MM/DD/YYYY prefix tests, and the final reference-date fallback.  The
reference date itself enters only through the returned action, matching
the Python control flow, where the branch taken never depends on it. -/
def postDateRule (post_date : String) : DateRule :=
  let lower := pyStrip (pyLower post_date)
  let lcs := lower.data
  if lower = "today" then DateRule.fmtRef
  else if lower = "yesterday" then DateRule.sub 1
  else if listHas "days ago".data lcs then
    match searchNumUnit "day".data lcs with
    | some n => DateRule.sub n
    | none => DateRule.fmtRef
  else if listHas "weeks ago".data lcs then
    match searchNumUnit "week".data lcs with
    | some n => DateRule.sub (7 * n)
    | none => DateRule.fmtRef
  else if listHas "months ago".data lcs then
    match searchNumUnit "month".data lcs with
    | some n => DateRule.sub (30 * n)
    | none => DateRule.fmtRef
  else if startsYMD post_date then DateRule.ret post_date
  else if startsMDY post_date then
    match strptimeMDY post_date with
    | some (y, m, d) => DateRule.ret (fmtYMD y m d)
    | none => DateRule.fmtRef
  else DateRule.fmtRef

/-- DataRefiner.fix_post_date (src/data_refiner.py lines 351 to 414).
The argument todayOrd is the day number of datetime.now, used only as the
fallback reference when scraped_at fails to parse.  Except.error marks the
uncaught OverflowError that date arithmetic raises outside the supported
calendar range. -/
def fixPostDate (todayOrd : Nat) (job : RJob) : Except String String :=
  let refOrd := refOf todayOrd job
  match postDateRule job.post_date with
  | DateRule.ret s => Except.ok s
  | DateRule.fmtRef => Except.ok (fmtOrd refOrd)
  | DateRule.sub n => subDaysFmt refOrd n

/-! ### The salary-range regex patterns

DataRefiner.extract_salary_range_from_text (src/data_refiner.py lines 261
to 293) tries seven re.search patterns in order, all compiled with
re.IGNORECASE.  Every pattern is built from literals, ws-star and the
capture group of one-to-three digits followed by comma-triples; the
matcher below implements leftmost greedy matching with backtracking over
the two choice points of the capture group (the digit-run length tried
longest first, the comma-triple count tried largest first).  The greedy
treatment of ws-star and of the digit run needs no backtracking because
whitespace never matches the literal that follows and a digit never
matches whitespace or a literal head. -/

/-- Token of the restricted pattern language used by the salary regexes. -/
inductive RTok : Type
  | lit (l : List Char) : RTok
  | wsStar : RTok
  | numGroup : RTok
deriving DecidableEq, Repr

/-- Case-insensitive ASCII character comparison, as re.IGNORECASE. -/
def chEqCI (a b : Char) : Bool := a.toLower = b.toLower

/-- Strip a literal case-insensitively. -/
def stripLitCI : List Char → List Char → Option (List Char)
  | [], cs => some cs
  | _ :: _, [] => none
  | a :: as, b :: bs => if chEqCI a b then stripLitCI as bs else none

/-- All ways of extending a digit group with comma-triples, greedy first;
the second component is the unconsumed remainder. -/
def commaChains : List Char → List (List Char × List Char)
  | ',' :: a :: b :: c :: rest =>
    if a.isDigit && b.isDigit && c.isDigit then
      ((commaChains rest).map fun p => (',' :: a :: b :: c :: p.1, p.2)) ++
        [([], ',' :: a :: b :: c :: rest)]
    else [([], ',' :: a :: b :: c :: rest)]
  | cs => [([], cs)]

/-- Candidates for the capture group of one-to-three digits followed by
comma-triples, in the backtracking order of the regex engine. -/
def numCandidates (cs : List Char) : List (List Char × List Char) :=
  let run := cs.takeWhile Char.isDigit
  let dmax := min 3 run.length
  (List.range dmax).flatMap fun i =>
    let d := dmax - i
    (commaChains (cs.drop d)).map fun p => (cs.take d ++ p.1, p.2)

/-- Match a token sequence at the current position, returning the captured
digit groups of the first (leftmost greedy) successful alternative. -/
def matchSeq : List RTok → List Char → Option (List (List Char))
  | [], _ => some []
  | RTok.lit l :: toks, cs =>
    match stripLitCI l cs with
    | some rest => matchSeq toks rest
    | none => none
  | RTok.wsStar :: toks, cs => matchSeq toks (dropPyWs cs)
  | RTok.numGroup :: toks, cs =>
    (numCandidates cs).findSome? fun p =>
      (matchSeq toks p.2).map fun gs => p.1 :: gs

/-- The re.search scan over start positions, leftmost first. -/
def reSearch (toks : List RTok) : List Char → Option (List (List Char))
  | [] => matchSeq toks []
  | c :: rest =>
    match matchSeq toks (c :: rest) with
    | some gs => some gs
    | none => reSearch toks rest

/-- The seven salary patterns of extract_salary_range_from_text, in
source order. -/
def salaryPatterns : List (List RTok) :=
  [ [RTok.lit ['$'], RTok.numGroup, RTok.wsStar, RTok.lit ['t', 'o'],
     RTok.wsStar, RTok.lit ['$'], RTok.numGroup],
    [RTok.lit ['$'], RTok.numGroup, RTok.wsStar, RTok.lit ['-'],
     RTok.wsStar, RTok.lit ['$'], RTok.numGroup],
    [RTok.lit ['$'], RTok.numGroup, RTok.wsStar, RTok.lit ['~'],
     RTok.wsStar, RTok.lit ['$'], RTok.numGroup],
    [RTok.lit ['$'], RTok.numGroup, RTok.lit ['t', 'o'], RTok.lit ['$'],
     RTok.numGroup],
    [RTok.numGroup, RTok.wsStar, RTok.lit ['t', 'o'], RTok.wsStar,
     RTok.numGroup, RTok.wsStar,
     RTok.lit ['m', 'o', 'n', 't', 'h', 'l', 'y']],
    [RTok.numGroup, RTok.wsStar, RTok.lit ['-'], RTok.wsStar,
     RTok.numGroup, RTok.wsStar,
     RTok.lit ['m', 'o', 'n', 't', 'h', 'l', 'y']],
    [RTok.numGroup, RTok.lit ['t', 'o'], RTok.numGroup, RTok.wsStar,
     RTok.lit ['m', 'o', 'n', 't', 'h', 'l', 'y']] ]

/-- Python int applied to a captured group with the thousands separators
removed, group.replace on the comma followed by int. -/
def parseGroupNat (g : List Char) : Nat :=
  natOfDigits (g.filter (fun c => c ≠ ','))

/-- DataRefiner.extract_salary_range_from_text (src/data_refiner.py lines
261 to 293): first pattern whose match survives the genuine-range guard
wins; a rejected match falls through to the next pattern, exactly as the
Python loop does. -/
def extract_salary_range_from_text (raw_text : String) : Option (Nat × Nat) :=
  salaryPatterns.findSome? fun p =>
    match reSearch p raw_text.data with
    | some [g1, g2] =>
      let low := parseGroupNat g1
      let high := parseGroupNat g2
      if low ≠ high && 0 < low && 0 < high then some (low, high) else none
    | _ => none

/-- The defaulting done by the caller DataRefiner.refine_single_job
(src/data_refiner.py lines 129 to 132): the salary fields are initialised
to zero and only overwritten when the extractor returns a range. -/
def salaryOrDefault (raw_text : String) : Nat × Nat :=
  (extract_salary_range_from_text raw_text).getD (0, 0)

/-! ### Job fingerprints -/

/-- The string hashed by DataRefiner.generate_job_hash (src/data_refiner.py
lines 295 to 309), the f-string of company, title, salary_low and
salary_high joined by vertical bars, each field taken verbatim. -/
def hashInput (company title : String) (salary_low salary_high : Int) : String :=
  company ++ "|" ++ title ++ "|" ++ toString salary_low ++ "|" ++
    toString salary_high

/-- DataRefiner.generate_job_hash, parametrised by the md5 hex digest,
which the claims never need to evaluate. -/
def generate_job_hash (md5 : String → String) (company title : String)
    (salary_low salary_high : Int) : String :=
  md5 (hashInput company title salary_low salary_high)

/-! ### remove_duplicates_and_fix_dates -/

/-- First-occurrence deduplication of a key list; this is the key order of
a Python dict filled by repeated insertion. -/
def firstOccur : List String → List String
  | [] => []
  | h :: t => h :: (firstOccur t).filter (fun x => x ≠ h)

/-- The keys of the hash_groups dictionary built by
remove_duplicates_and_fix_dates: the truthy job_hash values in order of
first appearance. -/
def groupKeys (jobs : List RJob) : List String :=
  firstOccur ((jobs.map RJob.job_hash).filter (fun h => h ≠ ""))

/-- Stable insertion for the descending sort on scraped_at under the
Python lexicographic comparison scrapedLe: the inserted record precedes
every already-placed record whose key is less than or equal to its own,
which is exactly where the stable Python list.sort(reverse=True) puts an
originally-earlier record. -/
def insertDescBy (j : RJob) : List RJob → List RJob
  | [] => [j]
  | x :: xs =>
    if scrapedLe x.scraped_at j.scraped_at then j :: x :: xs
    else x :: insertDescBy j xs

/-- The stable descending sort job_group.sort(key scraped_at,
reverse=True). -/
def sortDescScraped : List RJob → List RJob
  | [] => []
  | j :: t => insertDescBy j (sortDescScraped t)

/-- The survivor choice job_group[0] after the descending sort; for a
nonempty group this is the record with the lexicographically largest
scraped_at, the earliest-scraped among equals.  The default value is never
reached because every group key comes with a member. -/
def pickNewest (g : List RJob) : RJob := (sortDescScraped g).headD default

/-- Left-to-right effectful map over Except, modelling a Python loop that
appends results and lets the first exception escape. -/
def mapExcept (F : α → Except ε β) : List α → Except ε (List β)
  | [] => Except.ok []
  | a :: l =>
    match F a with
    | Except.error e => Except.error e
    | Except.ok b =>
      match mapExcept F l with
      | Except.error e => Except.error e
      | Except.ok bs => Except.ok (b :: bs)

/-- The body of the per-group loop of remove_duplicates_and_fix_dates:
collect the group of a hash, keep the record the descending scraped_at
sort puts first, and overwrite its post_date with fix_post_date. -/
def dedupEntry (todayOrd : Nat) (jobs : List RJob) (h : String) :
    Except String RJob :=
  let g := jobs.filter (fun j => j.job_hash = h)
  let newest := pickNewest g
  (fixPostDate todayOrd newest).map (fun pd => { newest with post_date := pd })

/-- DataRefiner.remove_duplicates_and_fix_dates (src/data_refiner.py lines
311 to 349): group the jobs carrying a truthy job_hash by that hash in
first-appearance order, keep from each group the record picked by the
descending scraped_at sort, and overwrite its post_date with
fix_post_date; an OverflowError escaping from fix_post_date aborts the
whole call. -/
def remove_duplicates_and_fix_dates (todayOrd : Nat) (jobs : List RJob) :
    Except String (List RJob) :=
  mapExcept (dedupEntry todayOrd jobs) (groupKeys jobs)

/-- The duplicates_removed counter of remove_duplicates_and_fix_dates: one
less than the size of every hash group, summed.  Records without a truthy
job_hash belong to no group and are not counted. -/
def duplicatesRemoved (jobs : List RJob) : Nat :=
  ((groupKeys jobs).map
    (fun h => (jobs.filter (fun j => j.job_hash = h)).length - 1)).sum

/-! ### LLMJobParser.create_batches -/

/-- Loop of LLMJobParser.create_batches (src/llm_parser.py lines 118 to
144): cur and size mirror current_batch and current_batch_size; a new
batch starts exactly when adding the next text to a nonempty current
batch would push its cumulative length over 20000 characters. -/
def createBatchesAux : List String → List String → Nat → List (List String)
  | [], cur, _ => if cur.isEmpty then [] else [cur]
  | t :: ts, cur, size =>
    if size + t.length > 20000 && !cur.isEmpty then
      cur :: createBatchesAux ts [t] t.length
    else
      createBatchesAux ts (cur ++ [t]) (size + t.length)

/-- LLMJobParser.create_batches. -/
def create_batches (raw_texts : List String) : List (List String) :=
  createBatchesAux raw_texts [] 0

/-- Cumulative character length of a batch. -/
def batchLen (b : List String) : Nat := (b.map String.length).sum

/-! ### LLMJobParser.parse_batch response handling

The post-LLM part of parse_batch (src/llm_parser.py lines 199 to 253) is
a pure function of the response text once json.loads is abstracted as a
parameter returning an optional JSON value, none standing for
JSONDecodeError. -/

/-- JSON values, at the granularity parse_batch distinguishes. -/
inductive JVal : Type
  | str (s : String) : JVal
  | num (n : Int) : JVal
  | bool (b : Bool) : JVal
  | null : JVal
  | arr (xs : List JVal) : JVal
  | obj (fields : List (String × JVal)) : JVal

/-- Python dict assignment: replace the value of an existing key in place,
else append the new pair. -/
def setField : List (String × JVal) → String → JVal → List (String × JVal)
  | [], k, v => [(k, v)]
  | (k1, v1) :: t, k, v =>
    if k1 = k then (k, v) :: t else (k1, v1) :: setField t k v

/-- Add the scraped_at timestamp to a parsed job object. -/
def addScrapedAt (iso : String) : JVal → JVal
  | JVal.obj fields => JVal.obj (setField fields "scraped_at" (JVal.str iso))
  | v => v

/-- All elements of the parsed array are JSON objects; a non-object
element makes the item-assignment loop raise, which the enclosing except
turns into an empty result. -/
def allObjs : List JVal → Bool
  | [] => true
  | JVal.obj _ :: t => allObjs t
  | _ => false

/-- The truncation repair of parse_batch: when the stripped response does
not end with the array-closing bracket AND starts with the array-opening
bracket, the stripped response with a closing bracket appended is parsed;
in every other case the response is parsed as received. -/
def repairedContent (response : String) : String :=
  let t := pyStrip response
  if !(pyEndsWith t "]") && pyStartsWith t "[" then t ++ "]" else response

/-- Response handling of LLMJobParser.parse_batch: an empty stripped
response, a failed parse of the (possibly repaired) content, a non-object
non-array JSON value, or an array containing a non-object all yield the
empty result, marking the whole batch failed; a single object is wrapped
into a one-element array; otherwise every object of the array gets the
scraped_at timestamp. -/
def parse_batch_post (jsonParse : String → Option JVal) (scrapedIso : String)
    (response : String) : List JVal :=
  if pyStrip response = "" then []
  else
    match jsonParse (repairedContent response) with
    | none => []
    | some (JVal.obj fields) =>
      [JVal.obj (setField fields "scraped_at" (JVal.str scrapedIso))]
    | some (JVal.arr xs) =>
      if allObjs xs then xs.map (addScrapedAt scrapedIso) else []
    | some _ => []

/-! ### MyCareersFutureScraper.is_valid_job -/

/-- The fields read by is_valid_job (src/final_scraper.py lines 255 to
282); a missing or None value is modelled as the empty string, matching
the falsy checks of the Python code. -/
structure SJob where
  company : String
  title : String
  location : String
  job_type : String
  salary : String
  posted_date : String
deriving DecidableEq, Repr

/-- The bare location tokens rejected as company names. -/
def locationKeywords : List String :=
  ["North", "South", "East", "West", "Central", "Singapore", "Islandwide"]

/-- The bare job-type tokens rejected as titles. -/
def jobTypeKeywords : List String :=
  ["Full Time", "Part Time", "Contract", "Temporary", "Internship",
   "Permanent"]

/-- MyCareersFutureScraper.is_valid_job.  The membership tests model the
Python operator in on the keyword lists; the final line models the
has_additional check, any over the four auxiliary fields. -/
def is_valid_job (j : SJob) : Bool :=
  let company := pyStrip j.company
  let title := pyStrip j.title
  if company = "" ∨ title = "" then false
  else if company = title then false
  else if company ∈ locationKeywords then false
  else if title ∈ jobTypeKeywords then false
  else
    j.location ≠ "" || j.job_type ≠ "" || j.salary ≠ "" || j.posted_date ≠ ""

/-! ### The pipeline refinement step

UnifiedJobPipeline and ImprovedJobPipeline carry textually identical
copies of step2_data_refinement, refine_single_job, infer_industry and
infer_experience_level (src/unified_job_pipeline.py lines 459 to 537,
src/improved_job_pipeline.py lines 253 to 300); one embedding covers
both. -/

/-- A raw job as read by refine_single_job; a missing key is modelled as
the empty string (for the integer salaries, as the default zero). -/
structure UJob where
  title : String
  company : String
  location : String
  salary_low : Int
  salary_high : Int
  url : String
  job_hash : String
  scraped_at : String
  source : String
deriving DecidableEq, Repr

/-- A refined job as built by refine_single_job. -/
structure VJob where
  title : String
  company : String
  location : String
  salary_low : Int
  salary_high : Int
  url : String
  job_hash : String
  scraped_at : String
  source : String
  industry : String
  job_type : String
  experience_level : String
  post_date : String
deriving DecidableEq, Repr

/-- Application of generate_job_hash to a job record, as done by
DataRefiner.refine_single_job (src/data_refiner.py lines 141 to 147): only
company, title, salary_low and salary_high are passed. -/
def jobFingerprint (md5 : String → String) (j : UJob) : String :=
  generate_job_hash md5 j.company j.title j.salary_low j.salary_high

/-- The string hashed by ImprovedJobPipeline.generate_enhanced_job_hash
(src/improved_job_pipeline.py lines 129 to 141): the underscore join of
title, company, location and the stringified salary bounds, read with
dict.get off the full record. -/
def enhancedHashInput (j : UJob) : String :=
  String.intercalate "_"
    [j.title, j.company, j.location, toString j.salary_low,
     toString j.salary_high]

/-- ImprovedJobPipeline.generate_enhanced_job_hash, parametrised by the
md5 hex digest. -/
def generate_enhanced_job_hash (md5 : String → String) (j : UJob) : String :=
  md5 (enhancedHashInput j)

/-- Python any over substring tests against a keyword list. -/
def containsAny (t : String) (kws : List String) : Bool :=
  kws.any (fun k => strHas t k)

/-- infer_industry of both pipelines. -/
def infer_industry (title : String) : String :=
  let tl := pyLower title
  if containsAny tl ["software", "developer", "engineer", "programmer",
                     "tech"] then "Information Technology"
  else if containsAny tl ["finance", "banking", "accounting",
                          "financial"] then "Banking & Finance"
  else if containsAny tl ["marketing", "sales",
                          "business development"] then "Marketing & Sales"
  else if containsAny tl ["healthcare", "medical", "nurse",
                          "doctor"] then "Healthcare"
  else "Other"

/-- infer_experience_level of both pipelines. -/
def infer_experience_level (title : String) : String :=
  let tl := pyLower title
  if containsAny tl ["senior", "lead", "principal", "architect"] then
    "Senior"
  else if containsAny tl ["junior", "entry", "graduate", "trainee"] then
    "Entry"
  else if containsAny tl ["manager", "director", "head", "chief"] then
    "Management"
  else "Mid"

/-- refine_single_job of both pipelines.  The arguments todayStr and
nowIso stand for datetime.now at the two call sites; the dict.get
defaults for scraped_at and source fire when the modelled field is the
empty string.  The truthiness validation reads the unstripped title and
company, exactly as the Python does. -/
def refine_single_job (todayStr nowIso : String) (j : UJob) : Option VJob :=
  if j.title = "" || j.company = "" then none
  else some
    { title := pyStrip j.title
      company := pyStrip j.company
      location := pyStrip j.location
      salary_low := j.salary_low
      salary_high := j.salary_high
      url := j.url
      job_hash := j.job_hash
      scraped_at := if j.scraped_at = "" then nowIso else j.scraped_at
      source := if j.source = "" then "mycareersfuture" else j.source
      industry := infer_industry j.title
      job_type := "Full Time"
      experience_level := infer_experience_level j.title
      post_date := todayStr }

/-- Loop of step2_data_refinement of both pipelines: the seen list models
the seen_hashes set (membership only); the hash of a kept job is recorded
before refinement, so a failed refinement still shadows later duplicates. -/
def step2Aux (refine : UJob → Option VJob) :
    List UJob → List String → List VJob
  | [], _ => []
  | j :: t, seen =>
    if j.job_hash ≠ "" ∧ j.job_hash ∉ seen then
      match refine j with
      | some r => r :: step2Aux refine t (j.job_hash :: seen)
      | none => step2Aux refine t (j.job_hash :: seen)
    else
      step2Aux refine t seen

/-- step2_data_refinement of both pipelines. -/
def step2_data_refinement (todayStr nowIso : String) (raw_jobs : List UJob) :
    List VJob :=
  step2Aux (refine_single_job todayStr nowIso) raw_jobs []

/-! ### process_batch_with_llm

Both pipelines create one task per record in batch order and collect them
with asyncio.gather(tasks, return_exceptions=True), whose documented
contract returns the outcomes in task-creation order regardless of
completion order; the per-record outcome is therefore modelled as a
function of the record, an Except.error standing for a raised exception.
The subsequent loop replaces each exception by None in place. -/

/-- The exception-handling step of the result loop: a raised exception
becomes None, any other outcome is kept. -/
def outcomeToEntry (r : Except ε (Option β)) : Option β :=
  match r with
  | Except.error _ => none
  | Except.ok v => v

/-- process_batch_with_llm of both pipelines (src/unified_job_pipeline.py
lines 673 to 693, src/improved_job_pipeline.py lines 469 to 489). -/
def process_batch_with_llm (enhance : α → Except ε (Option β))
    (batch : List α) : List (Option β) :=
  batch.map fun job => outcomeToEntry (enhance job)

/-! ### Concrete instances used by witnesses and counterexamples -/

/-- A concrete per-record outcome assignment: the middle record raises. -/
def exEnhance : Nat → Except String (Option Nat) :=
  fun n => if n = 2 then Except.error "boom" else Except.ok (some (10 * n))

/-- A pair of concrete records agreeing on the fingerprint fields. -/
def exJobA : UJob := ⟨"T", "C", "East", 100, 200, "u1", "h1", "s1", "x1"⟩

/-- The partner record of exJobA, differing in every other field. -/
def exJobB : UJob := ⟨"T", "C", "East", 100, 200, "u2", "h2", "s2", "x2"⟩

/-- A json.loads stand-in probed at two inputs: the two-character object
text parses to the empty object, and the same text with a stray closing
bracket appended is ill-formed, as it is for the real parser. -/
def toyJsonLoads : String → Option JVal :=
  fun s => if s = "\x7b\x7d" then some (JVal.obj []) else none

/-- The earlier-scraped duplicate of the C1 example. -/
def exDup1 : RJob := ⟨"h", "2025-09-01T00:00:00", "2025-01-05"⟩

/-- The later-scraped duplicate of the C1 example. -/
def exDup2 : RJob := ⟨"h", "2025-09-02T00:00:00", "2025-01-05"⟩

/-- The first of two raw jobs sharing a hash, for the C9 witness. -/
def exRaw1 : UJob := ⟨"t1", "c1", "", 0, 0, "", "h1", "", ""⟩

/-- The second of two raw jobs sharing a hash, for the C9 witness. -/
def exRaw2 : UJob := ⟨"t2", "c2", "", 0, 0, "", "h1", "", ""⟩

/-! ## Theorems for the claims -/

/-- C4: batch correspondence of the parallel-per-record enhancement.  The
output of process_batch_with_llm has exactly the length of the input
batch; the entry at every position is determined by the input record at
that position alone (an enhancement result, or None for a raised
exception); a record whose unit raises gets None at its own position; and
two outcome assignments agreeing at position i produce the same entry at
position i, whatever they do to the sibling records.  Ordering is by
construction index-paired and independent of arrival order, which the
gather model already reflects. -/
theorem claim_C4 {α β ε : Type} (enhance enhance2 : α → Except ε (Option β))
    (batch : List α) :
    (process_batch_with_llm enhance batch).length = batch.length ∧
    (∀ i : Nat, (process_batch_with_llm enhance batch)[i]? =
      (batch[i]?).map (fun job => outcomeToEntry (enhance job))) ∧
    (∀ (i : Nat) (j : α) (e : ε), batch[i]? = some j → enhance j = Except.error e →
      (process_batch_with_llm enhance batch)[i]? = some none) ∧
    (∀ (i : Nat) (j : α), batch[i]? = some j → enhance j = enhance2 j →
      (process_batch_with_llm enhance batch)[i]? =
        (process_batch_with_llm enhance2 batch)[i]?) := by
  refine ⟨by simp [process_batch_with_llm], ?_, ?_, ?_⟩
  · intro i
    simp [process_batch_with_llm]
  · intro i j e hj he
    simp [process_batch_with_llm, hj, he, outcomeToEntry]
  · intro i j hj he
    simp [process_batch_with_llm, hj, he]

/-- Witness for C4 at a concrete three-record batch whose middle unit
raises: the middle output entry is None. -/
theorem claim_C4_witness :
    (process_batch_with_llm exEnhance [1, 2, 3])[1]? = some none :=
  (claim_C4 exEnhance exEnhance [1, 2, 3]).2.2.1 1 2 "boom" rfl rfl

/-- C7: the fingerprint generate_job_hash is the digest of exactly the
string company, bar, title, bar, salary_low, bar, salary_high with every
field taken verbatim (no lowercasing or other normalisation); records
agreeing on those four fields get the same fingerprint whatever their
other fields hold; the enhanced variant is likewise determined once the
location is fixed as well, and its digest input genuinely involves the
location. -/
theorem claim_C7 :
    (∀ (md5 : String → String) (c t : String) (lo hi : Int),
      generate_job_hash md5 c t lo hi =
        md5 (c ++ "|" ++ t ++ "|" ++ toString lo ++ "|" ++ toString hi)) ∧
    (∀ (md5 : String → String) (j1 j2 : UJob),
      j1.company = j2.company → j1.title = j2.title →
      j1.salary_low = j2.salary_low → j1.salary_high = j2.salary_high →
      jobFingerprint md5 j1 = jobFingerprint md5 j2) ∧
    (∀ (md5 : String → String) (j1 j2 : UJob),
      j1.company = j2.company → j1.title = j2.title →
      j1.salary_low = j2.salary_low → j1.salary_high = j2.salary_high →
      j1.location = j2.location →
      generate_enhanced_job_hash md5 j1 = generate_enhanced_job_hash md5 j2) ∧
    (∃ j1 j2 : UJob, j1.company = j2.company ∧ j1.title = j2.title ∧
      j1.salary_low = j2.salary_low ∧ j1.salary_high = j2.salary_high ∧
      enhancedHashInput j1 ≠ enhancedHashInput j2) := by
  refine ⟨fun _ _ _ _ _ => rfl, ?_, ?_, ?_⟩
  · intro md5 j1 j2 hc ht hl hh
    simp [jobFingerprint, generate_job_hash, hashInput, hc, ht, hl, hh]
  · intro md5 j1 j2 hc ht hl hh hloc
    simp [generate_enhanced_job_hash, enhancedHashInput, hc, ht, hl, hh, hloc]
  · exact ⟨⟨"T", "C", "East", 1, 2, "", "", "", ""⟩,
      ⟨"T", "C", "West", 1, 2, "", "", "", ""⟩,
      rfl, rfl, rfl, rfl, by decide⟩

/-- Witness for C7: two records with the same company, title and salary
bounds get the same fingerprint although every other field differs. -/
theorem claim_C7_witness :
    jobFingerprint id exJobA = jobFingerprint id exJobB :=
  claim_C7.2.1 id exJobA exJobB rfl rfl rfl rfl

/-! ### Lemmas for create_batches -/

lemma createBatchesAux_join (ts : List String) :
    ∀ (cur : List String) (size : Nat),
      (createBatchesAux ts cur size).flatten = cur ++ ts := by
  induction ts with
  | nil =>
    intro cur size
    by_cases h : cur.isEmpty <;>
      simp_all [createBatchesAux, List.isEmpty_iff]
  | cons t ts ih =>
    intro cur size
    simp only [createBatchesAux]
    split
    · simp [ih]
    · simp [ih]

lemma createBatchesAux_ne_nil (ts : List String) :
    ∀ (cur : List String) (size : Nat) (b : List String),
      b ∈ createBatchesAux ts cur size → b ≠ [] := by
  induction ts with
  | nil =>
    intro cur size b hb
    by_cases h : cur.isEmpty
    · simp [createBatchesAux, h] at hb
    · simp [createBatchesAux, h] at hb
      subst hb
      simpa [List.isEmpty_iff] using h
  | cons t ts ih =>
    intro cur size b hb
    simp only [createBatchesAux] at hb
    split at hb
    · rcases List.mem_cons.mp hb with rfl | hb
      · rename_i hcond
        have := (Bool.and_eq_true _ _).mp hcond |>.2
        simpa [List.isEmpty_iff] using this
      · exact ih _ _ _ hb
    · exact ih _ _ _ hb

lemma batchLen_append_one (cur : List String) (t : String) :
    batchLen (cur ++ [t]) = batchLen cur + t.length := by
  simp [batchLen]

lemma createBatchesAux_size (ts : List String) :
    ∀ (cur : List String) (size : Nat) (b : List String),
      size = batchLen cur → (2 ≤ cur.length → batchLen cur ≤ 20000) →
      b ∈ createBatchesAux ts cur size → 2 ≤ b.length →
      batchLen b ≤ 20000 := by
  induction ts with
  | nil =>
    intro cur size b hsize hcur hb hlen
    by_cases h : cur.isEmpty
    · simp [createBatchesAux, h] at hb
    · simp [createBatchesAux, h] at hb
      subst hb
      exact hcur hlen
  | cons t ts ih =>
    intro cur size b hsize hcur hb hlen
    simp only [createBatchesAux] at hb
    split at hb
    · rcases List.mem_cons.mp hb with rfl | hb
      · exact hcur hlen
      · refine ih [t] t.length b (by simp [batchLen]) ?_ hb hlen
        intro h2
        simp at h2
    · rename_i hcond
      refine ih (cur ++ [t]) (size + t.length) b
        (by rw [hsize, batchLen_append_one]) ?_ hb hlen
      intro h2
      rw [batchLen_append_one]
      have hfalse := Bool.eq_false_iff.mpr hcond
      rcases Bool.and_eq_false_iff.mp hfalse with hle | hemp
      · have : ¬ (20000 < size + t.length) := by
          simpa using hle
        omega
      · have : cur = [] := by
          simpa [List.isEmpty_iff] using hemp
        subst this
        simp at h2

lemma createBatchesAux_head (ts : List String) :
    ∀ (cur : List String) (size : Nat) (b : List String), cur ≠ [] →
      (createBatchesAux ts cur size).head? = some b →
      b.head? = cur.head? := by
  induction ts with
  | nil =>
    intro cur size b hcur hb
    simp [createBatchesAux, List.isEmpty_iff, hcur] at hb
    subst hb
    rfl
  | cons t ts ih =>
    intro cur size b hcur hb
    simp only [createBatchesAux] at hb
    split at hb
    · simp at hb
      subst hb
      rfl
    · have := ih (cur ++ [t]) (size + t.length) b (by simp) hb
      rwa [List.head?_append_of_ne_nil _ hcur] at this

lemma createBatchesAux_chain (ts : List String) :
    ∀ (cur : List String) (size : Nat), size = batchLen cur →
      List.Chain'
        (fun b1 b2 => 20000 < batchLen b1 + (b2.headD "").length)
        (createBatchesAux ts cur size) := by
  induction ts with
  | nil =>
    intro cur size hsize
    by_cases h : cur.isEmpty <;> simp [createBatchesAux, h]
  | cons t ts ih =>
    intro cur size hsize
    simp only [createBatchesAux]
    split
    · rename_i hcond
      rw [List.chain'_cons']
      constructor
      · intro y hy
        have hhead := createBatchesAux_head ts [t] t.length y
          (by simp) hy
        have hgt : 20000 < size + t.length := by
          have := (Bool.and_eq_true _ _).mp hcond |>.1
          simpa using this
        have : y.headD "" = t := by
          cases y with
          | nil => simp at hhead
          | cons a l =>
            simp at hhead
            simp [hhead]
        rw [this, ← hsize]
        exact hgt
      · exact ih [t] t.length (by simp [batchLen])
    · exact ih (cur ++ [t]) (size + t.length)
        (by rw [hsize, batchLen_append_one])

/-- C8: create_batches returns an order-preserving partition of its input
(the concatenation of the batches is the input list, nothing dropped or
duplicated, every batch nonempty); every batch holding two or more texts
stays within the 20000-character budget; and consecutive batches witness
the flush condition, the first batch of each adjacent pair having been
closed exactly because appending the following batch head would have
pushed it over the budget. -/
theorem claim_C8 (l : List String) :
    (create_batches l).flatten = l ∧
    (∀ b ∈ create_batches l, b ≠ []) ∧
    (∀ b ∈ create_batches l, 2 ≤ b.length → batchLen b ≤ 20000) ∧
    List.Chain'
      (fun b1 b2 => 20000 < batchLen b1 + (b2.headD "").length)
      (create_batches l) := by
  refine ⟨?_, ?_, ?_, ?_⟩
  · simpa using createBatchesAux_join l [] 0
  · intro b hb
    exact createBatchesAux_ne_nil l [] 0 b hb
  · intro b hb hlen
    refine createBatchesAux_size l [] 0 b (by simp [batchLen]) ?_ hb hlen
    intro h2
    simp at h2
  · exact createBatchesAux_chain l [] 0 (by simp [batchLen])

/-- Witness for C8: on a concrete two-text input both texts land in one
batch, whose cumulative length obeys the budget. -/
theorem claim_C8_witness : batchLen ["aa", "bbb"] ≤ 20000 :=
  (claim_C8 ["aa", "bbb"]).2.2.1 ["aa", "bbb"] (by decide) (by decide)

/-- C6 counterexample: the record with company A, title B and no
additional information satisfies none of the five rejection conditions of
the claim, yet is_valid_job rejects it, because the code carries a sixth
condition demanding at least one of location, job_type, salary or
posted_date. -/
theorem claim_C6_counterexample :
    is_valid_job ⟨"A", "B", "", "", "", ""⟩ = false ∧
    pyStrip "A" ≠ "" ∧ pyStrip "B" ≠ "" ∧ pyStrip "A" ≠ pyStrip "B" ∧
    pyStrip "A" ∉ locationKeywords ∧ pyStrip "B" ∉ jobTypeKeywords := by
  decide

/-- C6 amended: is_valid_job rejects a record exactly when the stripped
company is empty, the stripped title is empty, they coincide, the company
is a bare location token, the title is a bare job-type token, or — the
sixth condition the original claim omits — none of location, job_type,
salary and posted_date carries a truthy value.  In particular a record
with equal company and title, or with a bare location token as company,
is always rejected. -/
theorem claim_C6_amended (j : SJob) :
    is_valid_job j = false ↔
      (pyStrip j.company = "" ∨ pyStrip j.title = "" ∨
       pyStrip j.company = pyStrip j.title ∨
       pyStrip j.company ∈ locationKeywords ∨
       pyStrip j.title ∈ jobTypeKeywords ∨
       (j.location = "" ∧ j.job_type = "" ∧ j.salary = "" ∧
        j.posted_date = "")) := by
  unfold is_valid_job
  dsimp only
  split_ifs with h1 h2 h3 h4
  · simp only [eq_self_iff_true, true_iff]
    tauto
  · simp only [eq_self_iff_true, true_iff]
    tauto
  · simp only [eq_self_iff_true, true_iff]
    tauto
  · simp only [eq_self_iff_true, true_iff]
    tauto
  · constructor
    · intro h
      simp only [Bool.or_eq_false_iff] at h
      refine Or.inr (Or.inr (Or.inr (Or.inr (Or.inr ⟨?_, ?_, ?_, ?_⟩))))
      all_goals simp_all
    · intro h
      rcases h with h | h | h | h | h | h
      · exact absurd (Or.inl h) h1
      · exact absurd (Or.inr h) h1
      · exact absurd h h2
      · exact absurd h h3
      · exact absurd h h4
      · simp [h.1, h.2.1, h.2.2.1, h.2.2.2]

/-- C5 counterexample: a response consisting of a bare JSON object does
not end with the array-closing bracket, yet no repair is attempted (the
content handed to the JSON parser is the response itself, not the
response with a bracket appended), and the batch is not marked failed:
the parsed object is wrapped and returned.  Under the claim as stated the
repaired content would have been unparsable and the batch would have
failed. -/
theorem claim_C5_counterexample :
    pyEndsWith (pyStrip "\x7b\x7d") "]" = false ∧
    repairedContent "\x7b\x7d" = "\x7b\x7d" ∧
    parse_batch_post toyJsonLoads "T" "\x7b\x7d" =
      [JVal.obj [("scraped_at", JVal.str "T")]] ∧
    parse_batch_post toyJsonLoads "T" "\x7b\x7d" ≠ [] := by
  refine ⟨rfl, rfl, rfl, ?_⟩
  intro h
  rw [show parse_batch_post toyJsonLoads "T" "\x7b\x7d" =
    [JVal.obj [("scraped_at", JVal.str "T")]] from rfl] at h
  exact List.cons_ne_nil _ _ h

/-- C5 amended: the truncation repair of parse_batch appends the missing
closing bracket exactly when the stripped response starts with the
array-opening bracket and does not end with the closing one; a response
without the leading bracket is parsed as received, with no repair.  When
parsing the (possibly repaired) content fails, the whole batch fails:
parse_batch returns the empty result, so no record of the batch receives
a partial result. -/
theorem claim_C5_amended (jsonParse : String → Option JVal)
    (iso response : String) :
    (pyStartsWith (pyStrip response) "[" = false →
      repairedContent response = response) ∧
    (pyStartsWith (pyStrip response) "[" = true →
      pyEndsWith (pyStrip response) "]" = false →
      repairedContent response = pyStrip response ++ "]") ∧
    (jsonParse (repairedContent response) = none →
      parse_batch_post jsonParse iso response = []) := by
  refine ⟨?_, ?_, ?_⟩
  · intro hs
    simp [repairedContent, hs]
  · intro hs he
    simp [repairedContent, hs, he]
  · intro hp
    unfold parse_batch_post
    split
    · rfl
    · rw [hp]

/-- Witness for C5 at a concrete unparsable response: the batch result is
empty. -/
theorem claim_C5_witness :
    parse_batch_post (fun _ => none) "T" "not json" = [] :=
  (claim_C5_amended (fun _ => none) "T" "not json").2.2 rfl

/-! ### Lemmas for the salary extractor -/

lemma findSomeMem {α β : Type} (F : α → Option β) :
    ∀ (L : List α) (r : β), L.findSome? F = some r →
      ∃ p ∈ L, F p = some r := by
  intro L
  induction L with
  | nil => simp [List.findSome?]
  | cons a t ih =>
    intro r hr
    rw [List.findSome?_cons] at hr
    cases hfa : F a with
    | some b =>
      rw [hfa] at hr
      exact ⟨a, by simp, by rw [hfa]; exact hr⟩
    | none =>
      rw [hfa] at hr
      obtain ⟨p, hp, hfp⟩ := ih r hr
      exact ⟨p, by simp [hp], hfp⟩

/-- C3: a successful salary extraction always passes the genuine-range
guard (distinct positive bounds); the extractor is a pure function, so a
second application returns the same pair; on the three texts of the claim
it behaves as stated, the no-space range parsing to (6000, 8000), the
equal-bound range and the salary-free text falling through to none, which
the caller refine_single_job leaves as the (0, 0) defaults. -/
theorem claim_C3 :
    (∀ (t : String) (l h : Nat),
      extract_salary_range_from_text t = some (l, h) →
      l ≠ h ∧ 0 < l ∧ 0 < h) ∧
    extract_salary_range_from_text "$6,000to$8,000" = some (6000, 8000) ∧
    extract_salary_range_from_text "$6,000to$6,000" = none ∧
    extract_salary_range_from_text "no salary mentioned" = none ∧
    salaryOrDefault "$6,000to$8,000" = (6000, 8000) ∧
    salaryOrDefault "$6,000to$6,000" = (0, 0) ∧
    salaryOrDefault "no salary mentioned" = (0, 0) ∧
    (∀ t : String,
      extract_salary_range_from_text t = extract_salary_range_from_text t) := by
  refine ⟨?_, rfl, rfl, rfl, rfl, rfl, rfl, fun t => rfl⟩
  intro t l h hext
  unfold extract_salary_range_from_text at hext
  obtain ⟨p, hp, hfp⟩ := findSomeMem _ salaryPatterns _ hext
  cases hr : reSearch p t.data with
  | none => rw [hr] at hfp; simp at hfp
  | some gs =>
    rw [hr] at hfp
    rcases gs with _ | ⟨g1, rest⟩
    · simp at hfp
    rcases rest with _ | ⟨g2, rest2⟩
    · simp at hfp
    rcases rest2 with _ | ⟨g3, rest3⟩
    case cons.cons.cons => simp at hfp
    dsimp only at hfp
    split at hfp
    · rename_i hguard
      injection hfp with heq
      cases heq
      simp only [Bool.and_eq_true, decide_eq_true_eq] at hguard
      exact ⟨hguard.1.1, hguard.1.2, hguard.2⟩
    · exact absurd hfp (by simp)

/-- Witness for C3: the guard property instantiated at the concrete
successful extraction. -/
theorem claim_C3_witness : 6000 ≠ 8000 ∧ 0 < 6000 ∧ 0 < 8000 :=
  claim_C3.1 "$6,000to$8,000" 6000 8000 rfl

/-- C2 counterexample: fix_post_date is claimed never to throw, but on
the input Posted 3000000 days ago with reference date 2025-09-20 the
subtraction leaves the supported calendar range and the Python code
raises an uncaught OverflowError, which the embedding reports as
Except.error. -/
theorem claim_C2_counterexample :
    fixPostDate 0 ⟨"", "2025-09-20T00:00:00", "3000000 days ago"⟩ =
      Except.error "OverflowError: date value out of range" := rfl

/-- C2 amended: fix_post_date resolves the post date against the
reference date drawn from scraped_at by the case-insensitive rules in
source order — today to the reference date, yesterday to one day before,
N days ago to N days before, N weeks ago to 7 N days before, N months ago
to 30 N days before, an anchored YYYY-MM-DD prefix returned unchanged,
MM/DD/YYYY reformatted, anything else to the reference date — and never
throws EXCEPT when a relative rule computes a target outside the
supported calendar range (years 1 to 9999), where the date subtraction
raises OverflowError; within range the subtraction rules return exactly
the reference day number minus the offset, and the four example inputs of
the claim behave as stated. -/
theorem claim_C2_amended :
    (∀ pd : String, pyStrip (pyLower pd) = "today" →
      postDateRule pd = DateRule.fmtRef) ∧
    (∀ pd : String, pyStrip (pyLower pd) = "yesterday" →
      postDateRule pd = DateRule.sub 1) ∧
    (∀ (pd : String) (n : Nat),
      listHas "days ago".data (pyStrip (pyLower pd)).data = true →
      searchNumUnit "day".data (pyStrip (pyLower pd)).data = some n →
      postDateRule pd = DateRule.sub n) ∧
    (∀ (pd : String) (n : Nat),
      listHas "days ago".data (pyStrip (pyLower pd)).data = false →
      listHas "weeks ago".data (pyStrip (pyLower pd)).data = true →
      searchNumUnit "week".data (pyStrip (pyLower pd)).data = some n →
      postDateRule pd = DateRule.sub (7 * n)) ∧
    (∀ (pd : String) (n : Nat),
      listHas "days ago".data (pyStrip (pyLower pd)).data = false →
      listHas "weeks ago".data (pyStrip (pyLower pd)).data = false →
      listHas "months ago".data (pyStrip (pyLower pd)).data = true →
      searchNumUnit "month".data (pyStrip (pyLower pd)).data = some n →
      postDateRule pd = DateRule.sub (30 * n)) ∧
    (∀ pd : String, pyStrip (pyLower pd) ≠ "today" →
      pyStrip (pyLower pd) ≠ "yesterday" →
      listHas "days ago".data (pyStrip (pyLower pd)).data = false →
      listHas "weeks ago".data (pyStrip (pyLower pd)).data = false →
      listHas "months ago".data (pyStrip (pyLower pd)).data = false →
      startsYMD pd = true →
      postDateRule pd = DateRule.ret pd) ∧
    (∀ (pd : String) (y m d : Nat), pyStrip (pyLower pd) ≠ "today" →
      pyStrip (pyLower pd) ≠ "yesterday" →
      listHas "days ago".data (pyStrip (pyLower pd)).data = false →
      listHas "weeks ago".data (pyStrip (pyLower pd)).data = false →
      listHas "months ago".data (pyStrip (pyLower pd)).data = false →
      startsYMD pd = false → startsMDY pd = true →
      strptimeMDY pd = some (y, m, d) →
      postDateRule pd = DateRule.ret (fmtYMD y m d)) ∧
    (∀ pd : String, pyStrip (pyLower pd) ≠ "today" →
      pyStrip (pyLower pd) ≠ "yesterday" →
      listHas "days ago".data (pyStrip (pyLower pd)).data = false →
      listHas "weeks ago".data (pyStrip (pyLower pd)).data = false →
      listHas "months ago".data (pyStrip (pyLower pd)).data = false →
      startsYMD pd = false → startsMDY pd = false →
      postDateRule pd = DateRule.fmtRef) ∧
    (∀ (today : Nat) (job : RJob),
      (postDateRule job.post_date = DateRule.fmtRef →
        fixPostDate today job = Except.ok (fmtOrd (refOf today job))) ∧
      (∀ s : String, postDateRule job.post_date = DateRule.ret s →
        fixPostDate today job = Except.ok s) ∧
      (∀ n : Nat, postDateRule job.post_date = DateRule.sub n →
        fixPostDate today job = subDaysFmt (refOf today job) n)) ∧
    (∀ r n : Nat,
      (minOrd : Int) ≤ (r : Int) - (n : Int) →
      (r : Int) - (n : Int) ≤ (maxOrd : Int) →
      subDaysFmt r n = Except.ok (fmtOrd ((r : Int) - (n : Int)).toNat)) ∧
    (∀ (today : Nat) (job : RJob) (e : String),
      fixPostDate today job = Except.error e →
      ∃ n : Nat, postDateRule job.post_date = DateRule.sub n ∧
        ((refOf today job : Int) - (n : Int) < (minOrd : Int) ∨
         (maxOrd : Int) < (refOf today job : Int) - (n : Int))) ∧
    (∀ (today : Nat) (job : RJob),
      (∀ n : Nat, postDateRule job.post_date = DateRule.sub n →
        (minOrd : Int) ≤ (refOf today job : Int) - (n : Int) ∧
        (refOf today job : Int) - (n : Int) ≤ (maxOrd : Int)) →
      ∃ s : String, fixPostDate today job = Except.ok s) ∧
    fixPostDate 0 ⟨"", "2025-09-20T00:00:00", "Posted 3 days ago"⟩ =
      Except.ok "2025-09-17" ∧
    fixPostDate 0 ⟨"", "2025-09-20T00:00:00", "Posted today"⟩ =
      Except.ok "2025-09-20" ∧
    fixPostDate 0 ⟨"", "2025-09-20T00:00:00", "2025-01-05"⟩ =
      Except.ok "2025-01-05" ∧
    fixPostDate 0 ⟨"", "2025-09-20T00:00:00", "xyz"⟩ =
      Except.ok "2025-09-20" := by
  refine ⟨?_, ?_, ?_, ?_, ?_, ?_, ?_, ?_, ?_, ?_, ?_, ?_, rfl, rfl, rfl, rfl⟩
  · intro pd hl
    unfold postDateRule
    dsimp only
    rw [hl]
    rfl
  · intro pd hl
    unfold postDateRule
    dsimp only
    rw [hl]
    rfl
  · intro pd n hhas hsearch
    have h1 : pyStrip (pyLower pd) ≠ "today" := by
      intro h
      rw [h] at hhas
      exact absurd hhas (by decide)
    have h2 : pyStrip (pyLower pd) ≠ "yesterday" := by
      intro h
      rw [h] at hhas
      exact absurd hhas (by decide)
    unfold postDateRule
    dsimp only
    rw [if_neg h1, if_neg h2, if_pos hhas, hsearch]
  · intro pd n hd hhas hsearch
    have h1 : pyStrip (pyLower pd) ≠ "today" := by
      intro h
      rw [h] at hhas
      exact absurd hhas (by decide)
    have h2 : pyStrip (pyLower pd) ≠ "yesterday" := by
      intro h
      rw [h] at hhas
      exact absurd hhas (by decide)
    unfold postDateRule
    dsimp only
    rw [if_neg h1, if_neg h2, if_neg (by simp [hd]), if_pos hhas, hsearch]
  · intro pd n hd hw hhas hsearch
    have h1 : pyStrip (pyLower pd) ≠ "today" := by
      intro h
      rw [h] at hhas
      exact absurd hhas (by decide)
    have h2 : pyStrip (pyLower pd) ≠ "yesterday" := by
      intro h
      rw [h] at hhas
      exact absurd hhas (by decide)
    unfold postDateRule
    dsimp only
    rw [if_neg h1, if_neg h2, if_neg (by simp [hd]), if_neg (by simp [hw]),
      if_pos hhas, hsearch]
  · intro pd h1 h2 hd hw hm hy
    unfold postDateRule
    dsimp only
    rw [if_neg h1, if_neg h2, if_neg (by simp [hd]), if_neg (by simp [hw]),
      if_neg (by simp [hm]), if_pos hy]
  · intro pd y m d h1 h2 hd hw hm hy hmdy hstrp
    unfold postDateRule
    dsimp only
    rw [if_neg h1, if_neg h2, if_neg (by simp [hd]), if_neg (by simp [hw]),
      if_neg (by simp [hm]), if_neg (by simp [hy]), if_pos hmdy, hstrp]
  · intro pd h1 h2 hd hw hm hy hmdy
    unfold postDateRule
    dsimp only
    rw [if_neg h1, if_neg h2, if_neg (by simp [hd]), if_neg (by simp [hw]),
      if_neg (by simp [hm]), if_neg (by simp [hy]), if_neg (by simp [hmdy])]
  · intro today job
    refine ⟨?_, ?_, ?_⟩
    · intro hrule
      unfold fixPostDate
      rw [hrule]
    · intro s hrule
      unfold fixPostDate
      rw [hrule]
    · intro n hrule
      unfold fixPostDate
      rw [hrule]
  · intro r n hlo hhi
    unfold subDaysFmt
    dsimp only
    rw [if_neg ?_]
    intro hcond
    rcases (Bool.or_eq_true _ _).mp hcond with hlt | hgt
    · rw [decide_eq_true_eq] at hlt
      omega
    · rw [decide_eq_true_eq] at hgt
      omega
  · intro today job e herr
    unfold fixPostDate at herr
    cases hrule : postDateRule job.post_date with
    | ret s => rw [hrule] at herr; exact absurd herr (by simp)
    | fmtRef => rw [hrule] at herr; exact absurd herr (by simp)
    | sub n =>
      rw [hrule] at herr
      unfold subDaysFmt at herr
      dsimp only at herr
      split at herr
      · rename_i hcond
        refine ⟨n, rfl, ?_⟩
        rcases (Bool.or_eq_true _ _).mp hcond with hlt | hgt
        · exact Or.inl (by simpa using hlt)
        · exact Or.inr (by simpa using hgt)
      · exact absurd herr (by simp)
  · intro today job hin
    unfold fixPostDate
    cases hrule : postDateRule job.post_date with
    | ret s => exact ⟨s, rfl⟩
    | fmtRef => exact ⟨fmtOrd (refOf today job), rfl⟩
    | sub n =>
      obtain ⟨hlo, hhi⟩ := hin n hrule
      refine ⟨fmtOrd ((refOf today job : Int) - (n : Int)).toNat, ?_⟩
      unfold subDaysFmt
      dsimp only
      rw [if_neg ?_]
      intro hcond
      rcases (Bool.or_eq_true _ _).mp hcond with hlt | hgt
      · rw [decide_eq_true_eq] at hlt
        omega
      · rw [decide_eq_true_eq] at hgt
        omega

/-- Witness for C2: the days-ago rule instantiated at the concrete claim
example, selecting the three-day subtraction. -/
theorem claim_C2_witness :
    postDateRule "Posted 3 days ago" = DateRule.sub 3 :=
  claim_C2_amended.2.2.1 "Posted 3 days ago" 3 rfl rfl

/-! ### Lemmas for remove_duplicates_and_fix_dates -/

lemma mem_firstOccur : ∀ (l : List String) (x : String),
    x ∈ firstOccur l ↔ x ∈ l := by
  intro l
  induction l with
  | nil => simp [firstOccur]
  | cons a t ih =>
    intro x
    simp only [firstOccur, List.mem_cons, List.mem_filter,
      decide_eq_true_eq]
    constructor
    · rintro (rfl | ⟨hx, _⟩)
      · exact Or.inl rfl
      · exact Or.inr ((ih x).mp hx)
    · rintro (rfl | hx)
      · exact Or.inl rfl
      · by_cases hax : x = a
        · exact Or.inl hax
        · exact Or.inr ⟨(ih x).mpr hx, hax⟩

lemma nodup_firstOccur : ∀ l : List String, (firstOccur l).Nodup := by
  intro l
  induction l with
  | nil => simp [firstOccur]
  | cons a t ih =>
    simp only [firstOccur, List.nodup_cons]
    refine ⟨?_, List.Nodup.filter _ ih⟩
    intro hmem
    have := (List.mem_filter.mp hmem).2
    simp at this

lemma mem_groupKeys (jobs : List RJob) (h : String) :
    h ∈ groupKeys jobs ↔ h ≠ "" ∧ ∃ j ∈ jobs, j.job_hash = h := by
  unfold groupKeys
  rw [mem_firstOccur]
  simp only [List.mem_filter, List.mem_map, decide_eq_true_eq]
  tauto

lemma mem_insertDescBy (j : RJob) : ∀ (l : List RJob) (x : RJob),
    x ∈ insertDescBy j l ↔ x = j ∨ x ∈ l := by
  intro l
  induction l with
  | nil => simp [insertDescBy]
  | cons a t ih =>
    intro x
    simp only [insertDescBy]
    split
    · simp only [List.mem_cons]
      try tauto
    · simp only [List.mem_cons, ih]
      tauto

lemma mem_sortDescScraped : ∀ (l : List RJob) (x : RJob),
    x ∈ sortDescScraped l ↔ x ∈ l := by
  intro l
  induction l with
  | nil => simp [sortDescScraped]
  | cons a t ih =>
    intro x
    simp only [sortDescScraped, mem_insertDescBy, ih, List.mem_cons]

lemma sortDescScraped_ne_nil : ∀ l : List RJob, l ≠ [] →
    sortDescScraped l ≠ [] := by
  intro l hl
  cases l with
  | nil => exact absurd rfl hl
  | cons a t =>
    intro hcontra
    have ha : a ∈ sortDescScraped (a :: t) :=
      (mem_sortDescScraped _ a).mpr (by simp)
    rw [hcontra] at ha
    simp at ha

lemma listLe_refl : ∀ l : List Char, listLe l l = true := by
  intro l
  induction l with
  | nil => rfl
  | cons a t ih =>
    simp only [listLe, charLt]
    rw [if_neg (by simp), if_neg (by simp)]
    exact ih

lemma listLe_of_not : ∀ a b : List Char,
    listLe a b = false → listLe b a = true := by
  intro a
  induction a with
  | nil => intro b h; simp [listLe] at h
  | cons x as ih =>
    intro b h
    cases b with
    | nil => rfl
    | cons y bs =>
      simp only [listLe] at h ⊢
      by_cases hxy : charLt x y = true
      · rw [if_pos hxy] at h
        exact absurd h (by simp)
      · rw [if_neg hxy] at h
        by_cases hyx : charLt y x = true
        · rw [if_pos hyx]
        · rw [if_neg hyx] at h
          rw [if_neg hxy, if_neg hyx]
          exact ih bs h

lemma listLe_trans : ∀ a b c : List Char,
    listLe a b = true → listLe b c = true → listLe a c = true := by
  intro a
  induction a with
  | nil => intro b c _ _; rfl
  | cons x as ih =>
    intro b c hab hbc
    cases b with
    | nil => simp [listLe] at hab
    | cons y bs =>
      cases c with
      | nil => simp [listLe] at hbc
      | cons z cs =>
        simp only [listLe, charLt, decide_eq_true_eq] at hab hbc ⊢
        by_cases h1 : x.toNat < y.toNat
        · by_cases h2 : y.toNat < z.toNat
          · rw [if_pos (by simpa using (by omega : x.toNat < z.toNat))]
          · rw [if_neg h2] at hbc
            by_cases h3 : z.toNat < y.toNat
            · rw [if_pos (by simp [h3])] at hbc
              exact absurd hbc (by simp)
            · rw [if_pos (by simpa using (by omega : x.toNat < z.toNat))]
        · rw [if_neg (by simpa using h1)] at hab
          by_cases h4 : y.toNat < x.toNat
          · rw [if_pos (by simp [h4])] at hab
            exact absurd hab (by simp)
          · rw [if_neg (by simpa using h4)] at hab
            by_cases h2 : y.toNat < z.toNat
            · rw [if_pos (by simpa using (by omega : x.toNat < z.toNat))]
            · rw [if_neg (by simpa using h2)] at hbc
              by_cases h3 : z.toNat < y.toNat
              · rw [if_pos (by simp [h3])] at hbc
                exact absurd hbc (by simp)
              · rw [if_neg (by simpa using h3)] at hbc
                rw [if_neg (by simpa using (by omega : ¬ x.toNat < z.toNat)),
                  if_neg (by simpa using (by omega : ¬ z.toNat < x.toNat))]
                exact ih bs cs hab hbc

lemma scrapedLe_refl (a : String) : scrapedLe a a = true :=
  listLe_refl a.data

lemma scrapedLe_of_not (a b : String) (h : scrapedLe a b = false) :
    scrapedLe b a = true :=
  listLe_of_not a.data b.data h

lemma scrapedLe_trans (a b c : String) (hab : scrapedLe a b = true)
    (hbc : scrapedLe b c = true) : scrapedLe a c = true :=
  listLe_trans a.data b.data c.data hab hbc

lemma insertDescBy_head_ge (j : RJob) (l : List RJob)
    (hall : ∀ x ∈ l,
      scrapedLe x.scraped_at (l.headD default).scraped_at = true) :
    ∀ x ∈ insertDescBy j l,
      scrapedLe x.scraped_at
        ((insertDescBy j l).headD default).scraped_at = true := by
  cases l with
  | nil =>
    intro x hx
    simp only [insertDescBy, List.mem_singleton] at hx
    subst hx
    simp [insertDescBy, scrapedLe_refl]
  | cons a t =>
    intro x hx
    by_cases hcond : scrapedLe a.scraped_at j.scraped_at = true
    · rw [insertDescBy, if_pos hcond] at hx ⊢
      simp only [List.headD_cons]
      rcases List.mem_cons.mp hx with rfl | hx2
      · exact scrapedLe_refl _
      · exact scrapedLe_trans _ _ _ (by simpa using hall x hx2) hcond
    · rw [insertDescBy, if_neg hcond] at hx ⊢
      simp only [List.headD_cons]
      rcases List.mem_cons.mp hx with rfl | hx2
      · exact scrapedLe_refl _
      · rcases (mem_insertDescBy j t x).mp hx2 with rfl | hx3
        · exact scrapedLe_of_not _ _ (Bool.eq_false_iff.mpr hcond)
        · simpa using hall x (List.mem_cons_of_mem a hx3)

lemma sortDescScraped_head_ge : ∀ (l : List RJob) (x : RJob),
    x ∈ sortDescScraped l →
      scrapedLe x.scraped_at
        ((sortDescScraped l).headD default).scraped_at = true := by
  intro l
  induction l with
  | nil => intro x hx; simp [sortDescScraped] at hx
  | cons a t ih =>
    intro x hx
    rw [sortDescScraped] at hx ⊢
    exact insertDescBy_head_ge a (sortDescScraped t) ih x hx

lemma pickNewest_mem (g : List RJob) (hg : g ≠ []) : pickNewest g ∈ g := by
  have h1 : sortDescScraped g ≠ [] := sortDescScraped_ne_nil g hg
  obtain ⟨b, rest, hs⟩ := List.exists_cons_of_ne_nil h1
  have hb : b ∈ g := (mem_sortDescScraped g b).mp (by rw [hs]; simp)
  unfold pickNewest
  rw [hs]
  simpa using hb

lemma pickNewest_ge (g : List RJob) :
    ∀ x ∈ g, scrapedLe x.scraped_at (pickNewest g).scraped_at = true := by
  intro x hx
  exact sortDescScraped_head_ge g x ((mem_sortDescScraped g x).mpr hx)

lemma mapExcept_mem {α ε β : Type} (F : α → Except ε β) :
    ∀ (l : List α) (bs : List β), mapExcept F l = Except.ok bs →
      ∀ b ∈ bs, ∃ a ∈ l, F a = Except.ok b := by
  intro l
  induction l with
  | nil =>
    intro bs h b hb
    simp only [mapExcept] at h
    injection h with h
    subst h
    simp at hb
  | cons a t ih =>
    intro bs h b hb
    simp only [mapExcept] at h
    split at h
    · exact absurd h (by simp)
    · rename_i v hfa
      split at h
      · exact absurd h (by simp)
      · rename_i vs hmt
        injection h with h
        subst h
        rcases List.mem_cons.mp hb with rfl | hb2
        · exact ⟨a, by simp, hfa⟩
        · obtain ⟨a2, ha2, hfa2⟩ := ih vs hmt b hb2
          exact ⟨a2, by simp [ha2], hfa2⟩

lemma mapExcept_congr {α ε β : Type} (F1 F2 : α → Except ε β) :
    ∀ l : List α, (∀ a ∈ l, F1 a = F2 a) →
      mapExcept F1 l = mapExcept F2 l := by
  intro l
  induction l with
  | nil => intro _; rfl
  | cons a t ih =>
    intro hall
    simp only [mapExcept]
    rw [hall a (by simp), ih (fun x hx => hall x (by simp [hx]))]

lemma mapExcept_filter_single (F : String → Except String RJob) :
    ∀ (keys : List String) (out : List RJob),
      mapExcept F keys = Except.ok out → keys.Nodup →
      (∀ k ∈ keys, ∀ r : RJob, F k = Except.ok r → r.job_hash = k) →
      ∀ h ∈ keys, ∃ r : RJob, F h = Except.ok r ∧
        out.filter (fun x => x.job_hash = h) = [r] := by
  intro keys
  induction keys with
  | nil =>
    intro out hmap _ _ h hh
    simp at hh
  | cons k ks ih =>
    intro out hmap hnodup hpres h hh
    simp only [mapExcept] at hmap
    split at hmap
    · exact absurd hmap (by simp)
    · rename_i b hfk
      split at hmap
      · exact absurd hmap (by simp)
      · rename_i bs hmt
        injection hmap with hmap
        subst hmap
        have hbk : b.job_hash = k := hpres k (by simp) b hfk
        have hks : ∀ r ∈ bs, r.job_hash ∈ ks := by
          intro r hr
          obtain ⟨k2, hk2, hfk2⟩ := mapExcept_mem F ks bs hmt r hr
          rw [hpres k2 (by simp [hk2]) r hfk2]
          exact hk2
        rcases List.mem_cons.mp hh with rfl | hh2
        · refine ⟨b, hfk, ?_⟩
          rw [List.filter_cons, if_pos (by simp [hbk])]
          have hnil : bs.filter (fun x => x.job_hash = h) = [] := by
            rw [List.filter_eq_nil_iff]
            intro r hr
            simp only [decide_eq_true_eq]
            intro hrh
            exact (List.nodup_cons.mp hnodup).1 (hrh ▸ hks r hr)
          rw [hnil]
        · have hk_ne : b.job_hash ≠ h := by
            rw [hbk]
            intro hcontra
            exact (List.nodup_cons.mp hnodup).1 (hcontra ▸ hh2)
          obtain ⟨r, hfr, hfilt⟩ := ih bs hmt (List.nodup_cons.mp hnodup).2
            (fun k2 hk2 => hpres k2 (by simp [hk2])) h hh2
          refine ⟨r, hfr, ?_⟩
          rw [List.filter_cons, if_neg (by simp [hk_ne]), hfilt]

lemma dedupEntry_hash (today : Nat) (jobs : List RJob) :
    ∀ k ∈ groupKeys jobs, ∀ r : RJob,
      dedupEntry today jobs k = Except.ok r → r.job_hash = k := by
  intro k hk r hr
  have hex : ∃ j ∈ jobs, j.job_hash = k := ((mem_groupKeys jobs k).mp hk).2
  have hgne : jobs.filter (fun j => j.job_hash = k) ≠ [] := by
    obtain ⟨j, hj, hjk⟩ := hex
    intro hcontra
    have : j ∈ jobs.filter (fun x => x.job_hash = k) :=
      List.mem_filter.mpr ⟨hj, by simp [hjk]⟩
    rw [hcontra] at this
    simp at this
  have hpick : (pickNewest (jobs.filter (fun j => j.job_hash = k))).job_hash
      = k := by
    have := pickNewest_mem _ hgne
    simpa using (List.mem_filter.mp this).2
  unfold dedupEntry at hr
  dsimp only at hr
  cases hfix : fixPostDate today
      (pickNewest (jobs.filter (fun j => j.job_hash = k))) with
  | error e => rw [hfix] at hr; exact absurd hr (by simp [Except.map])
  | ok pd =>
    rw [hfix] at hr
    simp only [Except.map] at hr
    injection hr with hr
    subst hr
    exact hpick

/-- C1: at the final dedup, for every fingerprint present among the
records carrying a truthy job_hash, exactly one record survives in the
output: it belongs to the group of that fingerprint, its scraped_at is
greatest in the group under string comparison, and it is kept whole
except for the rewritten post_date — the losing records are discarded,
never merged field by field. -/
theorem claim_C1 (today : Nat) (jobs out : List RJob) (h : String)
    (hout : remove_duplicates_and_fix_dates today jobs = Except.ok out)
    (hne : h ≠ "") (hex : ∃ j ∈ jobs, j.job_hash = h) :
    ∃ s pd,
      s ∈ jobs.filter (fun j => j.job_hash = h) ∧
      (∀ j ∈ jobs.filter (fun j => j.job_hash = h),
        scrapedLe j.scraped_at s.scraped_at = true) ∧
      fixPostDate today s = Except.ok pd ∧
      out.filter (fun j => j.job_hash = h) = [{ s with post_date := pd }] := by
  have hkey : h ∈ groupKeys jobs := (mem_groupKeys jobs h).mpr ⟨hne, hex⟩
  unfold remove_duplicates_and_fix_dates at hout
  obtain ⟨r, hFr, hfilter⟩ := mapExcept_filter_single (dedupEntry today jobs)
    (groupKeys jobs) out hout (nodup_firstOccur _)
    (dedupEntry_hash today jobs) h hkey
  have hgne : jobs.filter (fun j => j.job_hash = h) ≠ [] := by
    obtain ⟨j, hj, hjk⟩ := hex
    intro hcontra
    have : j ∈ jobs.filter (fun x => x.job_hash = h) :=
      List.mem_filter.mpr ⟨hj, by simp [hjk]⟩
    rw [hcontra] at this
    simp at this
  unfold dedupEntry at hFr
  dsimp only at hFr
  cases hfix : fixPostDate today
      (pickNewest (jobs.filter (fun j => j.job_hash = h))) with
  | error e => rw [hfix] at hFr; exact absurd hFr (by simp [Except.map])
  | ok pd =>
    rw [hfix] at hFr
    simp only [Except.map] at hFr
    injection hFr with hFr
    refine ⟨pickNewest (jobs.filter (fun j => j.job_hash = h)), pd,
      pickNewest_mem _ hgne, pickNewest_ge _, hfix, ?_⟩
    rw [hfilter, hFr]

/-- Witness for C1 at the concrete two-record claim example: among two
records with fingerprint h and scraped_at stamps 2025-09-01 and
2025-09-02, the survivor is unique, drawn from the group, of maximal
scraped_at, and the output group is exactly that survivor with its fixed
post_date. -/
theorem claim_C1_witness :
    ∃ s pd,
      s ∈ [exDup1, exDup2].filter (fun j => j.job_hash = "h") ∧
      (∀ j ∈ [exDup1, exDup2].filter (fun j => j.job_hash = "h"),
        scrapedLe j.scraped_at s.scraped_at = true) ∧
      fixPostDate 0 s = Except.ok pd ∧
      [exDup2].filter (fun j => j.job_hash = "h") =
        [{ s with post_date := pd }] :=
  claim_C1 0 [exDup1, exDup2] [exDup2] "h" (by rfl) (by decide)
    ⟨exDup1, by simp, rfl⟩

/-- C10: remove_duplicates_and_fix_dates silently ignores every record
whose job_hash is falsy — deleting such a record from the input changes
neither the returned list nor the duplicates_removed counter — and every
record of the output carries a truthy job_hash. -/
theorem claim_C10 :
    (∀ (today : Nat) (l1 l2 : List RJob) (j : RJob), j.job_hash = "" →
      remove_duplicates_and_fix_dates today (l1 ++ j :: l2) =
        remove_duplicates_and_fix_dates today (l1 ++ l2) ∧
      duplicatesRemoved (l1 ++ j :: l2) = duplicatesRemoved (l1 ++ l2)) ∧
    (∀ (today : Nat) (jobs out : List RJob),
      remove_duplicates_and_fix_dates today jobs = Except.ok out →
      ∀ x ∈ out, x.job_hash ≠ "") := by
  constructor
  · intro today l1 l2 j hj
    have hkeys : groupKeys (l1 ++ j :: l2) = groupKeys (l1 ++ l2) := by
      simp [groupKeys, hj]
    have hfilt : ∀ h : String, h ≠ "" →
        (l1 ++ j :: l2).filter (fun x => x.job_hash = h) =
          (l1 ++ l2).filter (fun x => x.job_hash = h) := by
      intro h hne
      simp only [List.filter_append, List.filter_cons]
      rw [if_neg (by simp [hj, Ne.symm hne])]
    constructor
    · unfold remove_duplicates_and_fix_dates
      rw [hkeys]
      apply mapExcept_congr
      intro k hk
      have hkne : k ≠ "" := ((mem_groupKeys _ k).mp (hkeys ▸ hk)).1
      unfold dedupEntry
      rw [hfilt k hkne]
    · unfold duplicatesRemoved
      rw [hkeys]
      apply congrArg
      apply List.map_congr_left
      intro k hk
      have hkne : k ≠ "" := ((mem_groupKeys _ k).mp hk).1
      rw [hfilt k hkne]
  · intro today jobs out hout x hx
    unfold remove_duplicates_and_fix_dates at hout
    obtain ⟨k, hk, hfk⟩ := mapExcept_mem _ _ _ hout x hx
    rw [dedupEntry_hash today jobs k hk x hfk]
    exact ((mem_groupKeys jobs k).mp hk).1

/-- Witness for C10: deleting a concrete falsy-hash record from a
concrete input leaves the dedup result unchanged. -/
theorem claim_C10_witness :
    remove_duplicates_and_fix_dates 0 [exDup1, ⟨"", "x", "y"⟩, exDup2] =
      remove_duplicates_and_fix_dates 0 [exDup1, exDup2] ∧
    duplicatesRemoved [exDup1, ⟨"", "x", "y"⟩, exDup2] =
      duplicatesRemoved [exDup1, exDup2] :=
  claim_C10.1 0 [exDup1] [exDup2] ⟨"", "x", "y"⟩ rfl

/-! ### Lemmas for step2_data_refinement -/

lemma refine_single_job_hash (ts ni : String) (j : UJob) (r : VJob)
    (h : refine_single_job ts ni j = some r) : r.job_hash = j.job_hash := by
  unfold refine_single_job at h
  split at h
  · exact absurd h (by simp)
  · injection h with h
    subst h
    rfl

lemma step2Aux_filter (refine : UJob → Option VJob)
    (hpres : ∀ (j : UJob) (r : VJob), refine j = some r →
      r.job_hash = j.job_hash)
    (h : String) (hne : h ≠ "") :
    ∀ (jobs : List UJob) (seen : List String),
      (h ∈ seen →
        (step2Aux refine jobs seen).filter (fun v => v.job_hash = h) = []) ∧
      (h ∉ seen →
        (step2Aux refine jobs seen).filter (fun v => v.job_hash = h) =
          (match jobs.find? (fun j => j.job_hash = h) with
           | none => []
           | some j0 => (refine j0).toList)) := by
  intro jobs
  induction jobs with
  | nil =>
    intro seen
    exact ⟨fun _ => rfl, fun _ => rfl⟩
  | cons j t ih =>
    intro seen
    constructor
    · intro hseen
      simp only [step2Aux]
      by_cases hcond : j.job_hash ≠ "" ∧ j.job_hash ∉ seen
      · rw [if_pos hcond]
        have hjh : j.job_hash ≠ h := fun he => hcond.2 (he ▸ hseen)
        cases hr : refine j with
        | some r =>
          rw [List.filter_cons, if_neg (by simp [hpres j r hr, hjh])]
          exact (ih (j.job_hash :: seen)).1 (List.mem_cons_of_mem _ hseen)
        | none =>
          exact (ih (j.job_hash :: seen)).1 (List.mem_cons_of_mem _ hseen)
      · rw [if_neg hcond]
        exact (ih seen).1 hseen
    · intro hseen
      simp only [step2Aux]
      by_cases hcond : j.job_hash ≠ "" ∧ j.job_hash ∉ seen
      · rw [if_pos hcond]
        by_cases hjh : j.job_hash = h
        · rw [List.find?_cons_of_pos _ (by simp [hjh])]
          cases hr : refine j with
          | some r =>
            rw [List.filter_cons, if_pos (by simp [hpres j r hr, hjh])]
            rw [(ih (j.job_hash :: seen)).1 (by simp [hjh])]
            simp [hr]
          | none =>
            rw [(ih (j.job_hash :: seen)).1 (by simp [hjh])]
            simp [hr]
        · rw [List.find?_cons_of_neg _ (by simp [hjh])]
          have hnotin : h ∉ j.job_hash :: seen := by
            intro hc
            rcases List.mem_cons.mp hc with he | he
            · exact hjh he.symm
            · exact hseen he
          cases hr : refine j with
          | some r =>
            rw [List.filter_cons, if_neg (by simp [hpres j r hr, hjh])]
            exact (ih (j.job_hash :: seen)).2 hnotin
          | none =>
            exact (ih (j.job_hash :: seen)).2 hnotin
      · rw [if_neg hcond]
        have hjh : j.job_hash ≠ h := by
          intro he
          rcases not_and_or.mp hcond with hc | hc
          · exact hne (he ▸ not_not.mp hc)
          · exact hseen (he ▸ not_not.mp hc)
        rw [List.find?_cons_of_neg _ (by simp [hjh])]
        exact (ih seen).2 hseen

lemma step2Aux_sublist (refine : UJob → Option VJob) :
    ∀ (jobs : List UJob) (seen : List String),
      List.Sublist (step2Aux refine jobs seen) (jobs.filterMap refine) := by
  intro jobs
  induction jobs with
  | nil => intro seen; simp [step2Aux]
  | cons j t ih =>
    intro seen
    simp only [step2Aux, List.filterMap_cons]
    by_cases hcond : j.job_hash ≠ "" ∧ j.job_hash ∉ seen
    · rw [if_pos hcond]
      cases hr : refine j with
      | some r => exact List.Sublist.cons₂ r (ih _)
      | none => exact ih _
    · rw [if_neg hcond]
      cases hr : refine j with
      | some r => exact List.Sublist.cons r (ih _)
      | none => exact ih _

/-- C9: the run-level dedup of step2_data_refinement keeps, for every
truthy job_hash, at most one output record — the refinement of the
earliest raw job carrying that hash in scrape order (no record at all
when that refinement fails), the opposite survivor choice from the
scraped_at-based final merge rule — and the output is an order-preserving
selection of the refined jobs, so output order follows input order. -/
theorem claim_C9 (todayStr nowIso : String) (jobs : List UJob) (h : String)
    (hne : h ≠ "") :
    ((step2_data_refinement todayStr nowIso jobs).filter
        (fun v => v.job_hash = h) =
      (match jobs.find? (fun j => j.job_hash = h) with
       | none => []
       | some j0 => (refine_single_job todayStr nowIso j0).toList)) ∧
    List.Sublist (step2_data_refinement todayStr nowIso jobs)
      (jobs.filterMap (refine_single_job todayStr nowIso)) := by
  constructor
  · exact (step2Aux_filter _ (refine_single_job_hash todayStr nowIso) h hne
      jobs []).2 (by simp)
  · exact step2Aux_sublist _ jobs []

/-- Witness for C9 at two concrete raw jobs sharing a hash: the output
group for that hash is exactly the refinement of the first job. -/
theorem claim_C9_witness :
    (step2_data_refinement "2025-09-20" "NOW" [exRaw1, exRaw2]).filter
        (fun v => v.job_hash = "h1") =
      (match [exRaw1, exRaw2].find? (fun j => j.job_hash = "h1") with
       | none => []
       | some j0 => (refine_single_job "2025-09-20" "NOW" j0).toList) :=
  (claim_C9 "2025-09-20" "NOW" [exRaw1, exRaw2] "h1" (by decide)).1

end Talyon
